import Mathlib

/- Verification of the rebalancing and execution engine of the
   wealthsimple-trading-bot repository (src/python_bot/src).

   The Python code is shallowly embedded: `Decimal` and `float` values are
   modelled as ℚ, Python `dict` lookups as association-list lookups, and
   fallible code as `Except`.  Each definition is a direct translation of the
   Python function named in its doc comment. -/

namespace TradingBot

/-- Python `int(...)` / `Decimal.to_integral_value(rounding=ROUND_DOWN)`:
truncation toward zero. -/
def rat_trunc (q : ℚ) : ℤ := if 0 ≤ q then ⌊q⌋ else ⌈q⌉

/-- `models.Position` (pydantic model), Decimal fields as ℚ. -/
structure Position where
  security_id : String
  symbol : String
  quantity : ℚ
  market_value : ℚ
  book_value : ℚ
  currency : String
  average_price : ℚ
  current_price : ℚ
  gain_loss : ℚ
  gain_loss_pct : ℚ
deriving DecidableEq

/-- `models.StockScore`; float fields as ℚ.  The source field
`sharpe_ratio` is called `sharpe` here. -/
structure StockScore where
  symbol : String
  name : String
  sector : String
  market_cap : ℚ
  avg_volume : ℚ
  return_90d : ℚ
  return_30d : ℚ
  volatility : ℚ
  sharpe : ℚ
  composite_score : ℚ
  is_etf : Bool
deriving DecidableEq

/-- `models.PortfolioTarget`. -/
structure PortfolioTarget where
  symbol : String
  security_id : String
  target_weight : ℚ
  target_value : ℚ
  current_value : ℚ
  current_weight : ℚ
  drift_pct : ℚ
  action : String
  trade_value : ℚ
  trade_quantity : ℤ
deriving DecidableEq

/-- `models.PortfolioSummary`. -/
structure PortfolioSummary where
  total_value : ℚ
  cash_balance : ℚ
  positions_value : ℚ
  num_holdings : ℕ
  targets : List PortfolioTarget
deriving DecidableEq

instance {ε α : Type} [DecidableEq ε] [DecidableEq α] : DecidableEq (Except ε α) :=
  fun x y =>
    match x, y with
    | Except.ok a, Except.ok b =>
        if h : a = b then isTrue (by rw [h])
        else isFalse (fun c => h (Except.ok.inj c))
    | Except.error a, Except.error b =>
        if h : a = b then isTrue (by rw [h])
        else isFalse (fun c => h (Except.error.inj c))
    | Except.ok _, Except.error _ => isFalse (fun c => Except.noConfusion c)
    | Except.error _, Except.ok _ => isFalse (fun c => Except.noConfusion c)

/-- Python `dict.get(key, default)` over an association list (first matching
key wins, as in a dict whose keys are unique). -/
def dict_getD {α : Type} : List (String × α) → String → α → α
  | [], _, d => d
  | p :: rest, k, d => if p.1 = k then p.2 else dict_getD rest k d

def find_by_symbol : List Position → String → Option Position
  | [], _ => none
  | p :: rest, s => if p.symbol = s then some p else find_by_symbol rest s

/-- The `pos_map` dict comprehension `{p.symbol: p for p in current_positions}`
of `rebalancer.py:46`: on duplicate symbols the last entry wins, hence the
reversed search. -/
def pos_map_get (current_positions : List Position) (s : String) : Option Position :=
  find_by_symbol current_positions.reverse s

/-- One iteration of the selected-symbols loop of
`PortfolioRebalancer.calculate_targets` (`rebalancer.py:61-106`).  Returns
`none` when the symbol is skipped for lack of a positive price. -/
def selected_target (drift_threshold min_trade max_trade : ℚ)
    (total_value target_weight target_value_per : ℚ)
    (current_positions : List Position)
    (security_prices : List (String × ℚ)) (security_ids : List (String × String))
    (symbol : String) : Option PortfolioTarget :=
  let price := dict_getD security_prices symbol 0
  let sec_id := dict_getD security_ids symbol ""
  if price ≤ 0 then none
  else
    let current_value := match pos_map_get current_positions symbol with
      | some p => p.market_value
      | none => 0
    let current_weight := if 0 < total_value then current_value / total_value else 0
    let drift_pct :=
      if 0 < target_weight then |current_weight - target_weight| / target_weight * 100
      else 0
    let trade_value := target_value_per - current_value
    let abs_trade := |trade_value|
    let action_qty : String × ℤ :=
      if drift_pct < drift_threshold ∨ abs_trade < min_trade then ("hold", 0)
      else if 0 < trade_value then
        ("buy", rat_trunc (min abs_trade max_trade / price))
      else
        ("sell", rat_trunc (min abs_trade max_trade / price))
    some
      ⟨symbol, sec_id, target_weight, target_value_per, current_value,
        current_weight, drift_pct, action_qty.1, abs_trade, action_qty.2⟩

/-- One iteration of the forced-liquidation loop of
`PortfolioRebalancer.calculate_targets` (`rebalancer.py:109-125`).  The local
`price` of line 111 is computed there but never used, so it is omitted. -/
def forced_target (selected_symbols : List String) (total_value : ℚ)
    (pos : Position) : Option PortfolioTarget :=
  if pos.symbol ∉ selected_symbols ∧ 0 < pos.quantity then
    some
      ⟨pos.symbol, pos.security_id, 0, 0, pos.market_value,
        (if 0 < total_value then pos.market_value / total_value else 0),
        100, "sell", pos.market_value, rat_trunc pos.quantity⟩
  else none

/-- `PortfolioRebalancer.calculate_targets` (`rebalancer.py:19-138`).
Configuration knobs are passed explicitly.  With a positive total value and an
empty selection, `Decimal("1") / Decimal(str(0))` on line 42 raises
`decimal.DivisionByZero`; that exception is modelled as `Except.error`. -/
def calculate_targets (drift_threshold min_trade max_trade : ℚ)
    (selected_stocks : List StockScore) (current_positions : List Position)
    (cash_balance : ℚ) (security_prices : List (String × ℚ))
    (security_ids : List (String × String)) : Except String PortfolioSummary :=
  let selected_symbols := selected_stocks.map (fun s => s.symbol)
  let positions_value := (current_positions.map (fun p => p.market_value)).sum
  let total_value := cash_balance + positions_value
  if total_value ≤ 0 then
    Except.ok ⟨total_value, cash_balance, positions_value,
      current_positions.length, []⟩
  else if selected_symbols.length = 0 then
    Except.error "division by zero"
  else
    let target_weight : ℚ := 1 / (selected_symbols.length : ℚ)
    let target_value_per := total_value * target_weight
    let sel_targets := selected_symbols.filterMap
      (selected_target drift_threshold min_trade max_trade total_value
        target_weight target_value_per current_positions security_prices
        security_ids)
    let forced_targets := current_positions.filterMap
      (forced_target selected_symbols total_value)
    Except.ok ⟨total_value, cash_balance, positions_value,
      current_positions.length, sel_targets ++ forced_targets⟩

lemma rat_trunc_zero : rat_trunc 0 = 0 := by norm_num [rat_trunc]

lemma rat_trunc_le_self {q : ℚ} (h : 0 ≤ q) : (rat_trunc q : ℚ) ≤ q := by
  rw [rat_trunc, if_pos h]
  exact Int.floor_le q

/-- In the interesting branch of `calculate_targets` (positive total value,
non-empty selection) the returned target list is the concatenation of the
selected-symbol targets and the forced-liquidation targets. -/
lemma calculate_targets_ok_targets
    {drift_threshold min_trade max_trade : ℚ}
    {selected_stocks : List StockScore} {current_positions : List Position}
    {cash_balance : ℚ} {security_prices : List (String × ℚ)}
    {security_ids : List (String × String)} {s : PortfolioSummary}
    (hv : 0 < cash_balance + ((current_positions.map (fun p => p.market_value)).sum))
    (hok : calculate_targets drift_threshold min_trade max_trade selected_stocks
      current_positions cash_balance security_prices security_ids = Except.ok s) :
    (selected_stocks.map (fun x => x.symbol)).length ≠ 0 ∧
    s.targets =
      (selected_stocks.map (fun x => x.symbol)).filterMap
        (selected_target drift_threshold min_trade max_trade
          (cash_balance + ((current_positions.map (fun p => p.market_value)).sum))
          (1 / ((selected_stocks.map (fun x => x.symbol)).length : ℚ))
          ((cash_balance + ((current_positions.map (fun p => p.market_value)).sum)) *
            (1 / ((selected_stocks.map (fun x => x.symbol)).length : ℚ)))
          current_positions security_prices security_ids) ++
      current_positions.filterMap
        (forced_target (selected_stocks.map (fun x => x.symbol))
          (cash_balance + ((current_positions.map (fun p => p.market_value)).sum))) := by
  simp only [calculate_targets] at hok
  rw [if_neg (not_le.mpr hv)] at hok
  by_cases hb : (selected_stocks.map (fun x => x.symbol)).length = 0
  · rw [if_pos hb] at hok
    cases hok
  · rw [if_neg hb] at hok
    cases hok
    exact ⟨hb, rfl⟩

/-- What a successful `forced_target` tells about its output. -/
lemma forced_target_eq_some {sels : List String} {tot : ℚ} {pos : Position}
    {t : PortfolioTarget} (h : forced_target sels tot pos = some t) :
    t.symbol = pos.symbol ∧ t.action = "sell" ∧
    t.trade_quantity = rat_trunc pos.quantity ∧ t.drift_pct = 100 ∧
    t.trade_value = pos.market_value ∧ t.target_weight = 0 ∧
    pos.symbol ∉ sels ∧ 0 < pos.quantity := by
  rw [forced_target] at h
  split at h
  · rename_i hc
    injection h with h
    subst h
    exact ⟨rfl, rfl, rfl, rfl, rfl, rfl, hc.1, hc.2⟩
  · cases h

/-- `forced_target` fires on every held, positive-quantity, unselected
position. -/
lemma forced_target_fires {sels : List String} {tot : ℚ} {pos : Position}
    (hmem : pos.symbol ∉ sels) (hq : 0 < pos.quantity) :
    forced_target sels tot pos =
      some ⟨pos.symbol, pos.security_id, 0, 0, pos.market_value,
        (if 0 < tot then pos.market_value / tot else 0),
        100, "sell", pos.market_value, rat_trunc pos.quantity⟩ := by
  rw [forced_target, if_pos ⟨hmem, hq⟩]

/-- Case analysis on the `(action, trade_qty)` assignment of
`rebalancer.py:81-91`. -/
lemma action_qty_cases (c₁ c₂ : Prop) [Decidable c₁] [Decidable c₂] (q : ℤ) :
    ((if c₁ then (("hold" : String), (0 : ℤ))
      else if c₂ then ("buy", q) else ("sell", q)).1 = "hold" ∧
     (if c₁ then (("hold" : String), (0 : ℤ))
      else if c₂ then ("buy", q) else ("sell", q)).2 = 0) ∨
    (((if c₁ then (("hold" : String), (0 : ℤ))
       else if c₂ then ("buy", q) else ("sell", q)).1 = "buy" ∨
      (if c₁ then (("hold" : String), (0 : ℤ))
       else if c₂ then ("buy", q) else ("sell", q)).1 = "sell") ∧
     (if c₁ then (("hold" : String), (0 : ℤ))
      else if c₂ then ("buy", q) else ("sell", q)).2 = q) := by
  split_ifs <;> simp

/-- What a successful `selected_target` tells about its output. -/
lemma selected_target_eq_some {drift_threshold min_trade max_trade : ℚ}
    {tot w per : ℚ} {poss : List Position} {prices : List (String × ℚ)}
    {ids : List (String × String)} {sym : String} {t : PortfolioTarget}
    (h : selected_target drift_threshold min_trade max_trade tot w per poss
      prices ids sym = some t) :
    t.symbol = sym ∧ 0 < dict_getD prices sym 0 ∧ t.target_weight = w ∧
    t.target_value = per ∧ t.trade_value = |per - t.current_value| ∧
    ((t.action = "hold" ∧ t.trade_quantity = 0) ∨
      ((t.action = "buy" ∨ t.action = "sell") ∧
        t.trade_quantity =
          rat_trunc (min t.trade_value max_trade / dict_getD prices sym 0))) := by
  rw [selected_target] at h
  split at h
  · cases h
  · rename_i hp
    injection h with h
    subst h
    refine ⟨rfl, not_le.mp hp, rfl, rfl, rfl, ?_⟩
    exact action_qty_cases _ _ _

/-- With a non-positive total portfolio value the planner returns an empty
target list (`rebalancer.py:31-39`). -/
lemma calculate_targets_nonpos_total
    {drift_threshold min_trade max_trade : ℚ}
    {selected_stocks : List StockScore} {current_positions : List Position}
    {cash_balance : ℚ} {security_prices : List (String × ℚ)}
    {security_ids : List (String × String)} {s : PortfolioSummary}
    (hv : ¬ 0 < cash_balance + ((current_positions.map (fun p => p.market_value)).sum))
    (hok : calculate_targets drift_threshold min_trade max_trade selected_stocks
      current_positions cash_balance security_prices security_ids = Except.ok s) :
    s.targets = [] := by
  simp only [calculate_targets] at hok
  rw [if_pos (not_lt.mp hv)] at hok
  cases hok
  rfl

/-- Evaluation helper: assembles a concrete run of `calculate_targets` from
separately evaluated components. -/
lemma calculate_targets_eval (d m M : ℚ) (sel : List StockScore)
    (poss : List Position) (cash pv tv w per : ℚ)
    (prices : List (String × ℚ)) (ids : List (String × String))
    (L1 L2 : List PortfolioTarget)
    (h1 : (poss.map (fun p => p.market_value)).sum = pv)
    (h0 : cash + pv = tv)
    (h2 : ¬ tv ≤ 0)
    (h3 : ¬ (sel.map (fun x => x.symbol)).length = 0)
    (hw : 1 / (((sel.map (fun x => x.symbol)).length : ℕ) : ℚ) = w)
    (hper : tv * w = per)
    (h4 : (sel.map (fun x => x.symbol)).filterMap
        (selected_target d m M tv w per poss prices ids) = L1)
    (h5 : poss.filterMap (forced_target (sel.map (fun x => x.symbol)) tv) = L2) :
    calculate_targets d m M sel poss cash prices ids =
      Except.ok ⟨tv, cash, pv, poss.length, L1 ++ L2⟩ := by
  simp only [calculate_targets, h1, h0]
  rw [if_neg h2, if_neg h3, hw, hper, h4, h5]

/-- Sample candidate records used to instantiate the theorems below. -/
def stockA : StockScore := ⟨"A", "A", "Technology", 0, 0, 0, 0, 0, 0, 0, false⟩

def stockB : StockScore := ⟨"B", "B", "Energy", 0, 0, 0, 0, 0, 0, 0, false⟩

def posA : Position := ⟨"sec-a", "A", 2, 20, 20, "CAD", 10, 10, 0, 0⟩

def posC : Position := ⟨"sec-c", "C", 3, 30, 30, "CAD", 10, 10, 0, 0⟩

def posCfrac : Position := ⟨"sec-c", "C", 5/2, 25, 25, "CAD", 10, 10, 0, 0⟩

/-- C2 (amended): every produced target with action `hold` has trade quantity
0, and, provided position market values are nonnegative, `trade_value ≥ 0`.
The converse direction of the claimed equivalence is refuted by
`buy_target_with_zero_quantity`. -/
theorem target_hold_qty_and_value
    (drift_threshold min_trade max_trade : ℚ) (selected_stocks : List StockScore)
    (current_positions : List Position) (cash_balance : ℚ)
    (security_prices : List (String × ℚ)) (security_ids : List (String × String))
    (s : PortfolioSummary)
    (hmv : ∀ p ∈ current_positions, 0 ≤ p.market_value)
    (hok : calculate_targets drift_threshold min_trade max_trade selected_stocks
      current_positions cash_balance security_prices security_ids = Except.ok s) :
    ∀ t ∈ s.targets, (t.action = "hold" → t.trade_quantity = 0) ∧ 0 ≤ t.trade_value := by
  intro t ht
  by_cases hv : 0 < cash_balance + ((current_positions.map (fun p => p.market_value)).sum)
  · obtain ⟨-, hts⟩ := calculate_targets_ok_targets hv hok
    rw [hts] at ht
    rcases List.mem_append.mp ht with hsel | hforced
    · obtain ⟨sym, hsym, hst⟩ := List.mem_filterMap.mp hsel
      obtain ⟨-, -, -, -, htv, hcase⟩ := selected_target_eq_some hst
      refine ⟨?_, by rw [htv]; exact abs_nonneg _⟩
      intro hhold
      rcases hcase with ⟨-, hq⟩ | ⟨hact, -⟩
      · exact hq
      · rcases hact with h1 | h1 <;> exact absurd (h1.symm.trans hhold) (by decide)
    · obtain ⟨pos, hpos, hft⟩ := List.mem_filterMap.mp hforced
      obtain ⟨-, hact, -, -, htv, -, -, -⟩ := forced_target_eq_some hft
      refine ⟨fun hhold => absurd (hact.symm.trans hhold) (by decide), ?_⟩
      rw [htv]
      exact hmv pos hpos
  · rw [calculate_targets_nonpos_total hv hok] at ht
    cases ht

/-- C2 witness: a concrete run in which the amended invariant holds. -/
theorem target_hold_qty_and_value_witness :
    (∀ p ∈ ([] : List Position), 0 ≤ p.market_value) ∧
    ∃ s, calculate_targets 5 1 5000 [stockA] [] 100 [("A", 10)] [] = Except.ok s ∧
      ∀ t ∈ s.targets, (t.action = "hold" → t.trade_quantity = 0) ∧ 0 ≤ t.trade_value := by
  have hok : calculate_targets 5 1 5000 [stockA] [] 100 [("A", 10)] [] =
      Except.ok ⟨100, 100, 0, 0, [⟨"A", "", 1, 100, 0, 0, 100, "buy", 100, 10⟩]⟩ :=
    calculate_targets_eval 5 1 5000 [stockA] [] 100 0 100 1 100 [("A", 10)] []
      [⟨"A", "", 1, 100, 0, 0, 100, "buy", 100, 10⟩] []
      (by norm_num) (by norm_num) (by norm_num) (by simp [stockA])
      (by norm_num [stockA]) (by norm_num)
      (by simp [selected_target, dict_getD, pos_map_get, find_by_symbol,
        stockA, rat_trunc]; norm_num)
      (by simp)
  exact ⟨by simp,
    _, hok, target_hold_qty_and_value 5 1 5000 [stockA] [] 100 [("A", 10)] [] _
      (by simp) hok⟩

/-- C2 counterexample: a `buy` target whose trade quantity is 0 (the cash gap
of $100 buys no whole share at price $10000), so
`action = hold ⇔ trade_quantity = 0` fails right-to-left. -/
theorem buy_target_with_zero_quantity :
    ∃ s, calculate_targets 5 1 5000 [stockA] [] 100 [("A", 10000)] [] = Except.ok s ∧
      ∃ t ∈ s.targets, t.trade_quantity = 0 ∧ t.action ≠ "hold" := by
  refine ⟨⟨100, 100, 0, 0, [⟨"A", "", 1, 100, 0, 0, 100, "buy", 100, 0⟩]⟩, ?_, ?_⟩
  · exact calculate_targets_eval 5 1 5000 [stockA] [] 100 0 100 1 100
      [("A", 10000)] [] [⟨"A", "", 1, 100, 0, 0, 100, "buy", 100, 0⟩] []
      (by norm_num) (by norm_num) (by norm_num) (by simp [stockA])
      (by norm_num [stockA]) (by norm_num)
      (by simp [selected_target, dict_getD, pos_map_get, find_by_symbol,
        stockA, rat_trunc]; norm_num)
      (by simp)
  · exact ⟨_, List.mem_singleton.mpr rfl, rfl, by decide⟩

/-- C3 (amended): every held position with positive quantity whose symbol is
not selected yields a forced `sell` target with `drift_pct = 100` and
`trade_value` equal to its market value, for any drift threshold; its
`trade_quantity` is the truncation of the (possibly fractional) position
quantity, not the quantity itself (see
`forced_liquidation_truncates_fractional`). -/
theorem forced_liquidation_target
    (drift_threshold min_trade max_trade : ℚ) (selected_stocks : List StockScore)
    (current_positions : List Position) (cash_balance : ℚ)
    (security_prices : List (String × ℚ)) (security_ids : List (String × String))
    (s : PortfolioSummary) (pos : Position)
    (hv : 0 < cash_balance + ((current_positions.map (fun p => p.market_value)).sum))
    (hpos : pos ∈ current_positions) (hq : 0 < pos.quantity)
    (hsym : pos.symbol ∉ selected_stocks.map (fun x => x.symbol))
    (hok : calculate_targets drift_threshold min_trade max_trade selected_stocks
      current_positions cash_balance security_prices security_ids = Except.ok s) :
    ∃ t ∈ s.targets, t.symbol = pos.symbol ∧ t.action = "sell" ∧
      t.trade_quantity = rat_trunc pos.quantity ∧ t.drift_pct = 100 ∧
      t.trade_value = pos.market_value := by
  obtain ⟨-, hts⟩ := calculate_targets_ok_targets hv hok
  rw [hts]
  exact ⟨_, List.mem_append_right _
    (List.mem_filterMap.mpr ⟨pos, hpos, forced_target_fires hsym hq⟩),
    rfl, rfl, rfl, rfl, rfl⟩

/-- C3 witness: held symbol C (quantity 3) is absent from the selection and is
fully liquidated with drift reported as 100. -/
theorem forced_liquidation_target_witness :
    ((0 : ℚ) < 100 + (([posC].map (fun p => p.market_value)).sum) ∧
      posC ∈ [posC] ∧ (0 : ℚ) < posC.quantity ∧
      posC.symbol ∉ [stockA].map (fun x => x.symbol)) ∧
    ∃ s, calculate_targets 5 1 5000 [stockA] [posC] 100 [("A", 10)] [] = Except.ok s ∧
      ∃ t ∈ s.targets, t.symbol = posC.symbol ∧ t.action = "sell" ∧
        t.trade_quantity = rat_trunc posC.quantity ∧ t.drift_pct = 100 ∧
        t.trade_value = posC.market_value := by
  have hok : calculate_targets 5 1 5000 [stockA] [posC] 100 [("A", 10)] [] =
      Except.ok ⟨130, 100, 30, 1,
        [⟨"A", "", 1, 130, 0, 0, 100, "buy", 130, 13⟩,
         ⟨"C", "sec-c", 0, 0, 30, 3/13, 100, "sell", 30, 3⟩]⟩ :=
    calculate_targets_eval 5 1 5000 [stockA] [posC] 100 30 130 1 130 [("A", 10)] []
      [⟨"A", "", 1, 130, 0, 0, 100, "buy", 130, 13⟩]
      [⟨"C", "sec-c", 0, 0, 30, 3/13, 100, "sell", 30, 3⟩]
      (by norm_num [posC]) (by norm_num) (by norm_num) (by simp [stockA])
      (by norm_num [stockA]) (by norm_num)
      (by simp [selected_target, dict_getD, pos_map_get, find_by_symbol,
        stockA, posC, rat_trunc]; norm_num)
      (by simp [forced_target, stockA, posC, rat_trunc]; norm_num)
  refine ⟨⟨by norm_num [posC], List.mem_singleton.mpr rfl, by norm_num [posC],
    by simp [posC, stockA]⟩, _, hok, ?_⟩
  exact forced_liquidation_target 5 1 5000 [stockA] [posC] 100 [("A", 10)] [] _ posC
    (by norm_num [posC]) (List.mem_singleton.mpr rfl) (by norm_num [posC])
    (by simp [posC, stockA]) hok

/-- C3 counterexample: a fractional holding of 2.5 shares is liquidated with
`trade_quantity = 2`, not the claimed full current quantity of 2.5 (the code
truncates with `int(pos.quantity)` on `rebalancer.py:123`). -/
theorem forced_liquidation_truncates_fractional :
    ∃ s, calculate_targets 5 1 5000 [stockA] [posCfrac] 100 [("A", 10)] [] =
        Except.ok s ∧
      ∃ t ∈ s.targets, t.symbol = "C" ∧ t.action = "sell" ∧
        (t.trade_quantity : ℚ) ≠ posCfrac.quantity := by
  refine ⟨⟨125, 100, 25, 1,
    [⟨"A", "", 1, 125, 0, 0, 100, "buy", 125, 12⟩,
     ⟨"C", "sec-c", 0, 0, 25, 1/5, 100, "sell", 25, 2⟩]⟩, ?_, ?_⟩
  · exact calculate_targets_eval 5 1 5000 [stockA] [posCfrac] 100 25 125 1 125
      [("A", 10)] [] [⟨"A", "", 1, 125, 0, 0, 100, "buy", 125, 12⟩]
      [⟨"C", "sec-c", 0, 0, 25, 1/5, 100, "sell", 25, 2⟩]
      (by norm_num [posCfrac]) (by norm_num) (by norm_num) (by simp [stockA])
      (by norm_num [stockA]) (by norm_num)
      (by simp [selected_target, dict_getD, pos_map_get, find_by_symbol,
        stockA, posCfrac, rat_trunc]; norm_num)
      (by simp [forced_target, stockA, posCfrac, rat_trunc]; norm_num)
  · refine ⟨_, List.mem_cons_of_mem _ (List.mem_singleton.mpr rfl), rfl, rfl, ?_⟩
    norm_num [posCfrac]

/-- C9 (amended): for every selected-pass target (positive target weight) whose
action is not `hold`, the looked-up price is positive, the recorded
`trade_value` is the uncapped gap `|target_value − current_value|`, the trade
quantity is the floor of the capped gap `min trade_value max_trade` divided by
the price, and that quantity never buys/sells more than the capped gap (no
rounding up).  The claim that the recorded traded value itself equals the
capped gap is refuted by `trade_value_field_uncapped`. -/
theorem nonhold_quantity_from_capped_value
    (drift_threshold min_trade max_trade : ℚ) (selected_stocks : List StockScore)
    (current_positions : List Position) (cash_balance : ℚ)
    (security_prices : List (String × ℚ)) (security_ids : List (String × String))
    (s : PortfolioSummary)
    (hmt : 0 ≤ max_trade)
    (hok : calculate_targets drift_threshold min_trade max_trade selected_stocks
      current_positions cash_balance security_prices security_ids = Except.ok s) :
    ∀ t ∈ s.targets, 0 < t.target_weight → t.action ≠ "hold" →
      0 < dict_getD security_prices t.symbol 0 ∧
      t.trade_value = |t.target_value - t.current_value| ∧
      t.trade_quantity = rat_trunc (min t.trade_value max_trade /
        dict_getD security_prices t.symbol 0) ∧
      (t.trade_quantity : ℚ) * dict_getD security_prices t.symbol 0 ≤
        min t.trade_value max_trade := by
  intro t ht hw hact
  by_cases hv : 0 < cash_balance + ((current_positions.map (fun p => p.market_value)).sum)
  · obtain ⟨-, hts⟩ := calculate_targets_ok_targets hv hok
    rw [hts] at ht
    rcases List.mem_append.mp ht with hsel | hforced
    · obtain ⟨sym, hsym, hst⟩ := List.mem_filterMap.mp hsel
      obtain ⟨hsymbol, hprice, -, htval, htv, hcase⟩ := selected_target_eq_some hst
      subst hsymbol
      rcases hcase with ⟨hhold, -⟩ | ⟨-, hqty⟩
      · exact absurd hhold hact
      · refine ⟨hprice, by rw [htv, htval], hqty, ?_⟩
        rw [hqty]
        have h0 : 0 ≤ min t.trade_value max_trade :=
          le_min (by rw [htv]; exact abs_nonneg _) hmt
        have hq0 : 0 ≤ min t.trade_value max_trade /
            dict_getD security_prices t.symbol 0 := div_nonneg h0 hprice.le
        calc (rat_trunc (min t.trade_value max_trade /
                dict_getD security_prices t.symbol 0) : ℚ) *
              dict_getD security_prices t.symbol 0
            ≤ (min t.trade_value max_trade / dict_getD security_prices t.symbol 0) *
              dict_getD security_prices t.symbol 0 :=
              mul_le_mul_of_nonneg_right (rat_trunc_le_self hq0) hprice.le
          _ = min t.trade_value max_trade := div_mul_cancel₀ _ (ne_of_gt hprice)
    · obtain ⟨pos, hpos, hft⟩ := List.mem_filterMap.mp hforced
      obtain ⟨-, -, -, -, -, hw0, -, -⟩ := forced_target_eq_some hft
      rw [hw0] at hw
      exact absurd hw (lt_irrefl 0)
  · rw [calculate_targets_nonpos_total hv hok] at ht
    cases ht

/-- C9 witness: a $10000 gap at price $1 under a $5000 cap trades exactly
5000 shares, the floor of the capped value over the price. -/
theorem nonhold_quantity_from_capped_value_witness :
    (0 : ℚ) ≤ 5000 ∧
    ∃ s, calculate_targets 5 1 5000 [stockA] [] 10000 [("A", 1)] [] = Except.ok s ∧
      ∀ t ∈ s.targets, 0 < t.target_weight → t.action ≠ "hold" →
        0 < dict_getD [("A", (1 : ℚ))] t.symbol 0 ∧
        t.trade_value = |t.target_value - t.current_value| ∧
        t.trade_quantity = rat_trunc (min t.trade_value 5000 /
          dict_getD [("A", (1 : ℚ))] t.symbol 0) ∧
        (t.trade_quantity : ℚ) * dict_getD [("A", (1 : ℚ))] t.symbol 0 ≤
          min t.trade_value 5000 := by
  have hok : calculate_targets 5 1 5000 [stockA] [] 10000 [("A", 1)] [] =
      Except.ok ⟨10000, 10000, 0, 0,
        [⟨"A", "", 1, 10000, 0, 0, 100, "buy", 10000, 5000⟩]⟩ :=
    calculate_targets_eval 5 1 5000 [stockA] [] 10000 0 10000 1 10000 [("A", 1)] []
      [⟨"A", "", 1, 10000, 0, 0, 100, "buy", 10000, 5000⟩] []
      (by norm_num) (by norm_num) (by norm_num) (by simp [stockA])
      (by norm_num [stockA]) (by norm_num)
      (by simp [selected_target, dict_getD, pos_map_get, find_by_symbol,
        stockA, rat_trunc]; norm_num)
      (by simp)
  exact ⟨by norm_num, _, hok,
    nonhold_quantity_from_capped_value 5 1 5000 [stockA] [] 10000 [("A", 1)] [] _
      (by norm_num) hok⟩

/-- C9 counterexample: with a $10000 value gap and a $5000 per-trade cap the
emitted target records `trade_value = 10000`, not the capped
`min(|target − current|, cap) = 5000`; only the quantity is capped
(`rebalancer.py:103` stores the uncapped `abs_trade`). -/
theorem trade_value_field_uncapped :
    ∃ s, calculate_targets 5 1 5000 [stockA] [] 10000 [("A", 1)] [] = Except.ok s ∧
      ∃ t ∈ s.targets, t.action ≠ "hold" ∧
        t.trade_value ≠ min |t.target_value - t.current_value| 5000 := by
  refine ⟨⟨10000, 10000, 0, 0,
    [⟨"A", "", 1, 10000, 0, 0, 100, "buy", 10000, 5000⟩]⟩, ?_, ?_⟩
  · exact calculate_targets_eval 5 1 5000 [stockA] [] 10000 0 10000 1 10000
      [("A", 1)] [] [⟨"A", "", 1, 10000, 0, 0, 100, "buy", 10000, 5000⟩] []
      (by norm_num) (by norm_num) (by norm_num) (by simp [stockA])
      (by norm_num [stockA]) (by norm_num)
      (by simp [selected_target, dict_getD, pos_map_get, find_by_symbol,
        stockA, rat_trunc]; norm_num)
      (by simp)
  · refine ⟨_, List.mem_singleton.mpr rfl, by decide, ?_⟩
    norm_num

/-- C10: a selected symbol whose quote is missing (default 0) or non-positive
receives no target at all: the selected pass skips it and the
forced-liquidation pass only considers unselected symbols. -/
theorem unpriced_selected_symbol_no_target
    (drift_threshold min_trade max_trade : ℚ) (selected_stocks : List StockScore)
    (current_positions : List Position) (cash_balance : ℚ)
    (security_prices : List (String × ℚ)) (security_ids : List (String × String))
    (s : PortfolioSummary) (sym : String)
    (hsym : sym ∈ selected_stocks.map (fun x => x.symbol))
    (hp : dict_getD security_prices sym 0 ≤ 0)
    (hok : calculate_targets drift_threshold min_trade max_trade selected_stocks
      current_positions cash_balance security_prices security_ids = Except.ok s) :
    ∀ t ∈ s.targets, t.symbol ≠ sym := by
  intro t ht heq
  by_cases hv : 0 < cash_balance + ((current_positions.map (fun p => p.market_value)).sum)
  · obtain ⟨-, hts⟩ := calculate_targets_ok_targets hv hok
    rw [hts] at ht
    rcases List.mem_append.mp ht with hsel | hforced
    · obtain ⟨sym', hsym', hst⟩ := List.mem_filterMap.mp hsel
      obtain ⟨hsymbol, hprice, -, -, -, -⟩ := selected_target_eq_some hst
      have he : sym' = sym := hsymbol.symm.trans heq
      rw [he] at hprice
      exact absurd hprice (not_lt.mpr hp)
    · obtain ⟨pos, hpos, hft⟩ := List.mem_filterMap.mp hforced
      obtain ⟨hsymbol, -, -, -, -, -, hnotin, -⟩ := forced_target_eq_some hft
      refine hnotin ?_
      rw [hsymbol.symm.trans heq]
      exact hsym
  · rw [calculate_targets_nonpos_total hv hok] at ht
    cases ht

/-- C10 witness: symbol A is selected but has no quote; it is held, yet no
target (neither rebalance nor liquidation) mentions it. -/
theorem unpriced_selected_symbol_no_target_witness :
    ("A" ∈ [stockA, stockB].map (fun x => x.symbol) ∧
      dict_getD [("B", (10 : ℚ))] "A" 0 ≤ 0) ∧
    ∃ s, calculate_targets 5 1 5000 [stockA, stockB] [posA] 100 [("B", 10)] [] =
        Except.ok s ∧
      ∀ t ∈ s.targets, t.symbol ≠ "A" := by
  have hok : calculate_targets 5 1 5000 [stockA, stockB] [posA] 100 [("B", 10)] [] =
      Except.ok ⟨120, 100, 20, 1, [⟨"B", "", 1/2, 60, 0, 0, 100, "buy", 60, 6⟩]⟩ :=
    calculate_targets_eval 5 1 5000 [stockA, stockB] [posA] 100 20 120 (1/2) 60
      [("B", 10)] [] [⟨"B", "", 1/2, 60, 0, 0, 100, "buy", 60, 6⟩] []
      (by norm_num [posA]) (by norm_num) (by norm_num) (by simp [stockA, stockB])
      (by norm_num [stockA, stockB]) (by norm_num)
      (by simp [selected_target, dict_getD, pos_map_get, find_by_symbol,
        stockA, stockB, posA, rat_trunc]; norm_num [abs_of_nonneg])
      (by simp [forced_target, stockA, stockB, posA])
  exact ⟨⟨by simp [stockA, stockB], by simp [dict_getD]⟩, _, hok,
    unpriced_selected_symbol_no_target 5 1 5000 [stockA, stockB] [posA] 100
      [("B", 10)] [] _ "A" (by simp [stockA, stockB]) (by simp [dict_getD]) hok⟩

/-- C4: the allocation planner is claimed never to raise, in particular on an
empty selection with positive portfolio value; the code instead raises
`decimal.DivisionByZero` there (target-weight division on `rebalancer.py:42`),
modelled as `Except.error`. -/
theorem empty_selection_division_error :
    calculate_targets 5 1 5000 [] [] 100 [] [] =
      Except.error "division by zero" := by norm_num [calculate_targets]

/-! Stock picker (`stock_picker.py`): metric calculator, percentile ranker,
sector diversity. -/

/-- `stock_picker.RISK_FREE_RATE` (`stock_picker.py:12`). -/
def RISK_FREE_RATE : ℚ := 4 / 100

/-- Total-period return of `StockPicker._calculate_metrics`
(`stock_picker.py:116`): `close[-1] / close[0] - 1` when the series has more
than one point, else 0. -/
def return_90d (closes : List ℚ) : ℚ :=
  if 1 < closes.length then closes.getLastD 0 / closes.headD 0 - 1 else 0

/-- The risk-adjusted (Sharpe-like) ratio of `StockPicker._calculate_metrics`
(`stock_picker.py:125-127`).  The annualization factor on line 126 is the
constant `365.0 / 90.0`, independent of the series' actual coverage. -/
def sharpe_calc (return_90d volatility : ℚ) : ℚ :=
  let annualized_return := return_90d * (365 / 90)
  if 0 < volatility then (annualized_return - RISK_FREE_RATE) / volatility else 0

/-- Refinement comparison: the risk-adjusted return as the spec words it, with
annualization factor `365 / period_days` for a series covering `period_days`
days. -/
def sharpe_spec (period_days return_total volatility risk_free : ℚ) : ℚ :=
  if 0 < volatility then (return_total * (365 / period_days) - risk_free) / volatility
  else 0

/-- C5 (amended): the risk-adjusted return equals the spec's formula with the
annualization period fixed at 90 days — `(return × 365/90 − risk_free) / vol`
for `vol > 0`, and 0 for `vol = 0` — regardless of the number of days the
series actually covers.  The claimed `365/period_days` annualization is
refuted at `period_days = 180` by `sharpe_period_days_mismatch`. -/
theorem sharpe_uses_fixed_90_day_annualization (r v : ℚ) :
    sharpe_calc r v = sharpe_spec 90 r v RISK_FREE_RATE := rfl

/-- C5 counterexample: for a 180-day period the code's ratio differs from the
spec formula `(return × 365/period_days − risk_free) / volatility`. -/
theorem sharpe_period_days_mismatch :
    sharpe_calc 1 1 ≠ sharpe_spec 180 1 1 RISK_FREE_RATE := by
  norm_num [sharpe_calc, sharpe_spec, RISK_FREE_RATE]

/-- `StockPicker._apply_sector_diversity` (`stock_picker.py:214-229`), with
the running `sector_counts` dict generalized to a count function. -/
def apply_sector_diversity_from (max_per_sector : ℕ) (sector_counts : String → ℕ) :
    List StockScore → List StockScore
  | [] => []
  | s :: rest =>
      let count := sector_counts s.sector
      if count < max_per_sector then
        s :: apply_sector_diversity_from max_per_sector
          (fun sec => if sec = s.sector then count + 1 else sector_counts sec) rest
      else apply_sector_diversity_from max_per_sector sector_counts rest

/-- `StockPicker._apply_sector_diversity` with the initially empty counts
dict. -/
def apply_sector_diversity (scores : List StockScore) (max_per_sector : ℕ) :
    List StockScore :=
  apply_sector_diversity_from max_per_sector (fun _ => 0) scores

lemma apply_sector_diversity_from_sublist (max_per_sector : ℕ) :
    ∀ (l : List StockScore) (counts : String → ℕ),
      (apply_sector_diversity_from max_per_sector counts l).Sublist l := by
  intro l
  induction l with
  | nil => intro counts; exact List.Sublist.refl _
  | cons s rest ih =>
      intro counts
      rw [apply_sector_diversity_from]
      split
      · exact (ih _).cons₂ s
      · exact (ih _).cons s

lemma apply_sector_diversity_from_count (max_per_sector : ℕ) (sec : String) :
    ∀ (l : List StockScore) (counts : String → ℕ),
      (apply_sector_diversity_from max_per_sector counts l).countP
          (fun x => x.sector == sec) ≤ max_per_sector - counts sec := by
  intro l
  induction l with
  | nil => intro counts; simp [apply_sector_diversity_from]
  | cons s rest ih =>
      intro counts
      rw [apply_sector_diversity_from]
      split
      · rename_i hlt
        rw [List.countP_cons]
        by_cases hsec : s.sector = sec
        · subst hsec
          have h1 := ih (fun c => if c = s.sector then counts s.sector + 1
            else counts c)
          rw [if_pos rfl] at h1
          simp only [beq_self_eq_true, if_true]
          omega
        · have hne : sec ≠ s.sector := fun h => hsec h.symm
          have h1 := ih (fun c => if c = s.sector then counts s.sector + 1
            else counts c)
          rw [if_neg hne] at h1
          have hp : (s.sector == sec) = false := beq_eq_false_iff_ne.mpr hsec
          rw [hp, if_neg Bool.false_ne_true]
          simpa using h1
      · exact ih counts

/-- C8: the sector-diversity pass returns a subsequence of its input — no
candidate is reordered, only removed — in which no sector occurs more than
`max_per_sector` times. -/
theorem sector_diversity_sublist_capped (scores : List StockScore)
    (max_per_sector : ℕ) :
    (apply_sector_diversity scores max_per_sector).Sublist scores ∧
    ∀ sec : String, (apply_sector_diversity scores max_per_sector).countP
        (fun x => x.sector == sec) ≤ max_per_sector := by
  refine ⟨apply_sector_diversity_from_sublist max_per_sector scores _, fun sec => ?_⟩
  simpa using apply_sector_diversity_from_count max_per_sector sec scores (fun _ => 0)

/-- The rank-assignment loop of `percentile_rank` (`stock_picker.py:184-186`):
walk the sorted `(original index, value)` pairs with a running `rank_idx`,
writing `rank_idx / denom` at each original index. -/
def assign_ranks (denom : ℚ) : List (ℕ × ℚ) → ℕ → List ℚ → List ℚ
  | [], _, ranks => ranks
  | p :: rest, rank_idx, ranks =>
      assign_ranks denom rest (rank_idx + 1) (ranks.set p.1 ((rank_idx : ℚ) / denom))

/-- `StockPicker._rank_and_score.percentile_rank` (`stock_picker.py:182-187`).
Python's `sorted` is a stable sort on the value component; a stable sort's
output is uniquely determined by the key order, and `List.insertionSort` with
the `value ≤ value` relation is such a stable sort, so it models
`sorted(enumerate(values), key=...)`. -/
def percentile_rank (values : List ℚ) : List ℚ :=
  let n := values.length
  let sorted_vals := List.insertionSort (fun a b => a.2 ≤ b.2) values.enum
  assign_ranks ((max (n - 1) 1 : ℕ) : ℚ) sorted_vals 0 (List.replicate n 0)

lemma assign_ranks_length (d : ℚ) :
    ∀ (l : List (ℕ × ℚ)) (i : ℕ) (ranks : List ℚ),
      (assign_ranks d l i ranks).length = ranks.length := by
  intro l
  induction l with
  | nil => intro i ranks; rfl
  | cons p rest ih =>
      intro i ranks
      rw [assign_ranks, ih]
      exact List.length_set ..

lemma assign_ranks_bounds (d : ℕ) (hd : 1 ≤ d) :
    ∀ (l : List (ℕ × ℚ)) (i : ℕ) (ranks : List ℚ),
      (∀ x ∈ ranks, 0 ≤ x ∧ x ≤ 1) → i + l.length ≤ d + 1 →
      ∀ x ∈ assign_ranks (d : ℚ) l i ranks, 0 ≤ x ∧ x ≤ 1 := by
  intro l
  induction l with
  | nil => intro i ranks hr _ x hx; exact hr x hx
  | cons p rest ih =>
      intro i ranks hr hle x hx
      rw [assign_ranks] at hx
      refine ih (i + 1) _ ?_ (by simp at hle ⊢; omega) x hx
      intro y hy
      rcases List.mem_or_eq_of_mem_set hy with hy' | hy'
      · exact hr y hy'
      · subst hy'
        have hid : (i : ℚ) ≤ (d : ℚ) := by
          have : i ≤ d := by simp at hle; omega
          exact_mod_cast this
        have hd0 : (0 : ℚ) < (d : ℚ) := by exact_mod_cast hd
        exact ⟨div_nonneg (by positivity) hd0.le, (div_le_one hd0).mpr hid⟩

lemma assign_ranks_append_last (d : ℚ) :
    ∀ (l₁ : List (ℕ × ℚ)) (q : ℕ × ℚ) (i : ℕ) (ranks : List ℚ),
      assign_ranks d (l₁ ++ [q]) i ranks =
        (assign_ranks d l₁ i ranks).set q.1 (((i + l₁.length : ℕ) : ℚ) / d) := by
  intro l₁
  induction l₁ with
  | nil => intro q i ranks; simp [assign_ranks]
  | cons p l₁ ih =>
      intro q i ranks
      rw [List.cons_append, assign_ranks, ih, assign_ranks]
      simp only [List.length_cons]
      have h : i + 1 + l₁.length = i + (l₁.length + 1) := by omega
      rw [h]

/-- In a list sorted by the second component, every element's value is at most
the last element's value. -/
lemma mem_snd_le_getLast :
    ∀ (l : List (ℕ × ℚ)) (h : l ≠ []),
      l.Sorted (fun a b => a.2 ≤ b.2) → ∀ x ∈ l, x.2 ≤ (l.getLast h).2 := by
  intro l
  induction l with
  | nil => intro h; exact absurd rfl h
  | cons a t ih =>
      intro h hs x hx
      cases t with
      | nil =>
          rcases List.mem_singleton.mp hx with rfl
          exact le_refl _
      | cons b t' =>
          obtain ⟨ha, hs'⟩ := List.sorted_cons.mp hs
          rw [List.getLast_cons (by simp : (b :: t') ≠ [])]
          rcases List.mem_cons.mp hx with rfl | hx'
          · exact ha _ (List.getLast_mem _)
          · exact ih (by simp) hs' x hx'

/-- C6 (amended): for every non-empty list, all fractional ranks lie in
`[0, 1]`; and whenever the list has at least two entries, a candidate holding
the maximum value receives rank 1.  For a singleton list the unique (maximal)
candidate receives rank 0, refuting the original claim (see
`percentile_rank_singleton_not_one`). -/
theorem percentile_rank_bounds_and_max (values : List ℚ) (hne : values ≠ []) :
    (∀ x ∈ percentile_rank values, 0 ≤ x ∧ x ≤ 1) ∧
    (2 ≤ values.length →
      ∃ i, i < values.length ∧ (∀ v ∈ values, v ≤ values.getD i 0) ∧
        (percentile_rank values).getD i 0 = 1) := by
  haveI instTot : IsTotal (ℕ × ℚ) (fun a b => a.2 ≤ b.2) :=
    ⟨fun a b => le_total a.2 b.2⟩
  haveI instTrans : IsTrans (ℕ × ℚ) (fun a b => a.2 ≤ b.2) :=
    ⟨fun _ _ _ hab hbc => le_trans hab hbc⟩
  have hperm := List.perm_insertionSort (fun a b : ℕ × ℚ => a.2 ≤ b.2) values.enum
  have hsorted := List.sorted_insertionSort (fun a b : ℕ × ℚ => a.2 ≤ b.2) values.enum
  have hlen : (List.insertionSort (fun a b : ℕ × ℚ => a.2 ≤ b.2) values.enum).length
      = values.length := by rw [hperm.length_eq, List.enum_length]
  have hnpos : 0 < values.length := List.length_pos.mpr hne
  simp only [percentile_rank]
  constructor
  · intro x hx
    refine assign_ranks_bounds (max (values.length - 1) 1) (le_max_right _ _)
      _ 0 _ ?_ ?_ x hx
    · intro y hy
      rw [List.eq_of_mem_replicate hy]
      norm_num
    · rw [hlen]
      omega
  · intro h2
    have hsne : List.insertionSort (fun a b : ℕ × ℚ => a.2 ≤ b.2) values.enum ≠ [] := by
      intro hnil
      rw [hnil] at hlen
      simp at hlen
      omega
    have hqmem : (List.insertionSort (fun a b : ℕ × ℚ => a.2 ≤ b.2)
        values.enum).getLast hsne ∈ values.enum :=
      hperm.subset (List.getLast_mem hsne)
    have hqget : values[((List.insertionSort (fun a b : ℕ × ℚ => a.2 ≤ b.2)
        values.enum).getLast hsne).1]? =
        some ((List.insertionSort (fun a b : ℕ × ℚ => a.2 ≤ b.2)
          values.enum).getLast hsne).2 :=
      List.mem_enum_iff_getElem?.mp hqmem
    have hqlt : ((List.insertionSort (fun a b : ℕ × ℚ => a.2 ≤ b.2)
        values.enum).getLast hsne).1 < values.length :=
      (List.getElem?_eq_some.mp hqget).1
    have hvq : values.getD ((List.insertionSort (fun a b : ℕ × ℚ => a.2 ≤ b.2)
        values.enum).getLast hsne).1 0 =
        ((List.insertionSort (fun a b : ℕ × ℚ => a.2 ≤ b.2)
          values.enum).getLast hsne).2 := by
      rw [List.getD_eq_getElem?_getD, hqget]
      rfl
    refine ⟨_, hqlt, ?_, ?_⟩
    · intro v hv
      obtain ⟨j, hj⟩ := List.mem_iff_getElem?.mp hv
      have hjmem : (j, v) ∈ values.enum := List.mk_mem_enum_iff_getElem?.mpr hj
      have hjs : (j, v) ∈ List.insertionSort (fun a b : ℕ × ℚ => a.2 ≤ b.2)
          values.enum := (hperm.mem_iff).mpr hjmem
      have := mem_snd_le_getLast _ hsne hsorted (j, v) hjs
      rw [hvq]
      exact this
    · have heq : assign_ranks ((max (values.length - 1) 1 : ℕ) : ℚ)
          (List.insertionSort (fun a b : ℕ × ℚ => a.2 ≤ b.2) values.enum) 0
          (List.replicate values.length 0) =
          (assign_ranks ((max (values.length - 1) 1 : ℕ) : ℚ)
            (List.insertionSort (fun a b : ℕ × ℚ => a.2 ≤ b.2) values.enum).dropLast
            0 (List.replicate values.length 0)).set
            ((List.insertionSort (fun a b : ℕ × ℚ => a.2 ≤ b.2)
              values.enum).getLast hsne).1
            (((0 + (List.insertionSort (fun a b : ℕ × ℚ => a.2 ≤ b.2)
                values.enum).dropLast.length : ℕ) : ℚ) /
              ((max (values.length - 1) 1 : ℕ) : ℚ)) := by
        conv_lhs => rw [← List.dropLast_append_getLast hsne]
        rw [assign_ranks_append_last]
      rw [heq]
      have hdl : (List.insertionSort (fun a b : ℕ × ℚ => a.2 ≤ b.2)
          values.enum).dropLast.length = values.length - 1 := by
        rw [List.length_dropLast, hlen]
      have hlen' : (assign_ranks ((max (values.length - 1) 1 : ℕ) : ℚ)
          (List.insertionSort (fun a b : ℕ × ℚ => a.2 ≤ b.2) values.enum).dropLast
          0 (List.replicate values.length 0)).length = values.length := by
        rw [assign_ranks_length, List.length_replicate]
      rw [List.getD_eq_getElem?_getD,
        List.getElem?_set_eq_of_lt _ (by rw [hlen']; exact hqlt)]
      simp only [Option.getD_some]
      rw [hdl]
      have hmax : max (values.length - 1) 1 = values.length - 1 :=
        max_eq_left (by omega)
      rw [hmax]
      have hz : (0 + (values.length - 1) : ℕ) = values.length - 1 := by omega
      rw [hz]
      have hne0 : ((values.length - 1 : ℕ) : ℚ) ≠ 0 := by
        have h : values.length - 1 ≠ 0 := by omega
        exact_mod_cast h
      exact div_self hne0

/-- C6 witness: for `[3, 1, 3]` the ranks are `[1/2, 0, 1]` — all in `[0, 1]`,
and a maximal candidate (the later tied 3, by stable order) has rank 1. -/
theorem percentile_rank_bounds_and_max_witness :
    (([3, 1, 3] : List ℚ) ≠ []) ∧
    ((∀ x ∈ percentile_rank [3, 1, 3], 0 ≤ x ∧ x ≤ 1) ∧
      (2 ≤ ([3, 1, 3] : List ℚ).length →
        ∃ i, i < ([3, 1, 3] : List ℚ).length ∧
          (∀ v ∈ ([3, 1, 3] : List ℚ), v ≤ ([3, 1, 3] : List ℚ).getD i 0) ∧
          (percentile_rank [3, 1, 3]).getD i 0 = 1)) :=
  ⟨by simp, percentile_rank_bounds_and_max [3, 1, 3] (by simp)⟩

/-- C6 counterexample: for the non-empty singleton list `[5]` the maximal (and
only) candidate receives fractional rank `0/max(0,1) = 0`, not 1. -/
theorem percentile_rank_singleton_not_one :
    percentile_rank [(5 : ℚ)] = [0] ∧
    ∀ i, i < 1 → (percentile_rank [(5 : ℚ)]).getD i 0 ≠ 1 := by
  have h : percentile_rank [(5 : ℚ)] = [0] := by
    simp [percentile_rank, assign_ranks, List.insertionSort, List.orderedInsert,
      List.enum, List.enumFrom]
  refine ⟨h, ?_⟩
  intro i hi
  have hi0 : i = 0 := by omega
  rw [hi0, h]
  norm_num

/-! Rate-gated executor (`executor.py`). -/

/-- The eviction loop `RateLimiter._prune_expired` (`executor.py:41-44`): drop
leading timestamps strictly older than `cutoff = now - window`. -/
def prune_expired (cutoff : ℚ) : List ℚ → List ℚ
  | [] => []
  | t :: ts => if t < cutoff then prune_expired cutoff ts else t :: ts

/-- The waiting loop of `RateLimiter.acquire` (`executor.py:20-28`) with time
passed explicitly: while the deque is full, sleep `max(wait, 1)` seconds
(advancing `now`) and prune again; then append the current time
(`executor.py:30`).  `fuel` bounds the loop; `none` models non-termination
(never reached for `max_requests ≥ 1`).  Returns the new deque and the
recorded submission timestamp. -/
def acquire_aux (max_requests : ℕ) (window_seconds : ℚ) :
    ℕ → List ℚ → ℚ → Option (List ℚ × ℚ)
  | 0, _, _ => none
  | fuel + 1, ts, now =>
      if max_requests ≤ ts.length then
        let oldest := ts.headD 0
        let wait := window_seconds - (now - oldest) + 1
        let now2 := now + max wait 1
        acquire_aux max_requests window_seconds fuel
          (prune_expired (now2 - window_seconds) ts) now2
      else some (ts ++ [now], now)

/-- `RateLimiter.acquire` (`executor.py:18-30`): prune, wait while at
capacity, then record the (possibly delayed) submission timestamp. -/
def acquire (max_requests : ℕ) (window_seconds : ℚ) (ts : List ℚ) (now : ℚ) :
    Option (List ℚ × ℚ) :=
  acquire_aux max_requests window_seconds (ts.length + 1)
    (prune_expired (now - window_seconds) ts) now

lemma prune_expired_length_le (c : ℚ) :
    ∀ ts : List ℚ, (prune_expired c ts).length ≤ ts.length := by
  intro ts
  induction ts with
  | nil => exact le_refl 0
  | cons t ts ih =>
      rw [prune_expired]
      split
      · exact le_trans ih (Nat.le_succ _)
      · exact le_refl _

lemma prune_expired_of_forall {c : ℚ} {ts : List ℚ}
    (h : ∀ t ∈ ts, ¬ t < c) : prune_expired c ts = ts := by
  cases ts with
  | nil => rfl
  | cons t ts => exact if_neg (h t (List.mem_cons_self t ts))

lemma acquire_aux_total (max_requests : ℕ) (window_seconds : ℚ)
    (hmax : 1 ≤ max_requests) :
    ∀ (fuel : ℕ) (ts : List ℚ) (now : ℚ), ts.length < fuel →
      ∃ ts' rec, acquire_aux max_requests window_seconds fuel ts now =
        some (ts', rec) ∧ now ≤ rec := by
  intro fuel
  induction fuel with
  | zero => intro ts now h; omega
  | succ fuel ih =>
      intro ts now h
      by_cases hfull : max_requests ≤ ts.length
      · cases ts with
        | nil => simp at hfull; omega
        | cons t0 tl =>
            rw [acquire_aux, if_pos hfull]
            simp only [List.headD_cons]
            have hw : t0 < (now + max (window_seconds - (now - t0) + 1) 1)
                - window_seconds := by
              have hm := le_max_left (window_seconds - (now - t0) + 1) 1
              linarith
            rw [show prune_expired
                ((now + max (window_seconds - (now - t0) + 1) 1) - window_seconds)
                (t0 :: tl) =
              prune_expired
                ((now + max (window_seconds - (now - t0) + 1) 1) - window_seconds)
                tl from by rw [prune_expired, if_pos hw]]
            obtain ⟨ts', rec, heq, hle⟩ := ih
              (prune_expired
                ((now + max (window_seconds - (now - t0) + 1) 1) - window_seconds) tl)
              (now + max (window_seconds - (now - t0) + 1) 1)
              (lt_of_le_of_lt (prune_expired_length_le _ _) (by simp at h; omega))
            refine ⟨ts', rec, heq, le_trans ?_ hle⟩
            have hm1 : (1 : ℚ) ≤ max (window_seconds - (now - t0) + 1) 1 :=
              le_max_right _ _
            linarith
      · rw [acquire_aux, if_neg hfull]
        exact ⟨ts ++ [now], now, rfl, le_refl now⟩

/-- C7: when at least `max_requests` admissions are already recorded within
the trailing window, `acquire` waits, and the submission timestamp it records
is at least `window_seconds` after the first (oldest) recorded admission. -/
theorem rate_limiter_delays_admission
    (max_requests : ℕ) (window_seconds : ℚ) (ts : List ℚ) (now : ℚ)
    (hmax : 1 ≤ max_requests) (hfull : max_requests ≤ ts.length)
    (hwin : ∀ t ∈ ts, now - window_seconds ≤ t) :
    ∃ ts' rec, acquire max_requests window_seconds ts now = some (ts', rec) ∧
      ts.headD 0 + window_seconds ≤ rec := by
  have hpr : prune_expired (now - window_seconds) ts = ts :=
    prune_expired_of_forall (fun t ht => not_lt.mpr (hwin t ht))
  rw [acquire, hpr]
  cases ts with
  | nil => simp at hfull; omega
  | cons t0 tl =>
      rw [acquire_aux, if_pos hfull]
      simp only [List.headD_cons]
      have hnow2 : t0 + window_seconds + 1 ≤
          now + max (window_seconds - (now - t0) + 1) 1 := by
        have hm := le_max_left (window_seconds - (now - t0) + 1) 1
        have ht0 : now - window_seconds ≤ t0 :=
          hwin t0 (List.mem_cons_self t0 tl)
        linarith
      have hw : t0 < (now + max (window_seconds - (now - t0) + 1) 1)
          - window_seconds := by linarith
      rw [show prune_expired
          ((now + max (window_seconds - (now - t0) + 1) 1) - window_seconds)
          (t0 :: tl) =
        prune_expired
          ((now + max (window_seconds - (now - t0) + 1) 1) - window_seconds)
          tl from by rw [prune_expired, if_pos hw]]
      obtain ⟨ts', rec, heq, hle⟩ := acquire_aux_total max_requests window_seconds
        hmax (tl.length + 1)
        (prune_expired
          ((now + max (window_seconds - (now - t0) + 1) 1) - window_seconds) tl)
        (now + max (window_seconds - (now - t0) + 1) 1)
        (lt_of_le_of_lt (prune_expired_length_le _ _) (by omega))
      refine ⟨ts', rec, heq, ?_⟩
      linarith

/-- C7 witness: 6 admissions recorded at time 0 against a ceiling of 6 per
3600-second window; the 7th admission is recorded no earlier than time
3600. -/
theorem rate_limiter_delays_admission_witness :
    ((1 : ℕ) ≤ 6 ∧ (6 : ℕ) ≤ ([0, 0, 0, 0, 0, 0] : List ℚ).length ∧
      ∀ t ∈ ([0, 0, 0, 0, 0, 0] : List ℚ), (0 : ℚ) - 3600 ≤ t) ∧
    ∃ ts' rec, acquire 6 3600 [0, 0, 0, 0, 0, 0] 0 = some (ts', rec) ∧
      ([0, 0, 0, 0, 0, 0] : List ℚ).headD 0 + 3600 ≤ rec :=
  ⟨⟨by norm_num, by norm_num, by norm_num⟩,
    rate_limiter_delays_admission 6 3600 [0, 0, 0, 0, 0, 0] 0 (by norm_num)
      (by norm_num) (by norm_num)⟩

/-- `models.OrderRequest`. -/
structure OrderRequest where
  security_id : String
  symbol : String
  quantity : ℤ
  order_type : String
  order_sub_type : String
  limit_price : ℚ
  time_in_force : String
deriving DecidableEq

/-- `models.OrderResponse` (the fields the executor reads). -/
structure OrderResponse where
  order_id : String
  security_id : String
  symbol : String
  quantity : ℤ
  order_type : String
  status : String
deriving DecidableEq

/-- `OrderExecutor._validate_order` (`executor.py:116-129`). -/
def validate_order (max_trade : ℚ) (o : OrderRequest) : Bool :=
  if max_trade < o.limit_price * (o.quantity : ℚ) then false
  else if o.quantity < 1 then false
  else true

/-- `OrderExecutor._execute_single` (`executor.py:101-114`): the placement
collaborator either returns a response or raises (modelled as
`Except.error`); an exception skips the `_daily_trade_count += 1` of line 105,
which runs only after `place_order` returns.  The rate limiter's `acquire`
(line 103) always returns — it only sleeps — and never touches the daily
count, so it plays no role in the counting model. -/
def execute_single (place_order : OrderRequest → Except Unit OrderResponse)
    (daily_trade_count : ℕ) (order : OrderRequest) : Option OrderResponse × ℕ :=
  match place_order order with
  | Except.ok resp => (some resp, daily_trade_count + 1)
  | Except.error _ => (none, daily_trade_count)

/-- State threaded through `OrderExecutor.execute_orders`: collected results,
the daily trade counter, and — as specification instrumentation — the number
of orders that reached the placement collaborator. -/
structure ExecState where
  results : List OrderResponse
  daily_trade_count : ℕ
  attempts : ℕ
deriving DecidableEq

/-- One of the two identical loops of `OrderExecutor.execute_orders`
(`executor.py:67-75` and `84-92`): stop at the daily cap, skip invalid
orders, otherwise submit and collect any non-`None` response. -/
def execute_loop (place_order : OrderRequest → Except Unit OrderResponse)
    (max_daily : ℕ) (max_trade : ℚ) : List OrderRequest → ExecState → ExecState
  | [], st => st
  | order :: rest, st =>
      if max_daily ≤ st.daily_trade_count then st
      else if validate_order max_trade order = false then
        execute_loop place_order max_daily max_trade rest st
      else
        let r := execute_single place_order st.daily_trade_count order
        execute_loop place_order max_daily max_trade rest
          ⟨st.results ++ (match r.1 with | some x => [x] | none => []),
            r.2, st.attempts + 1⟩

/-- `OrderExecutor.execute_orders` (`executor.py:57-99`): sells first, then
buys (the 5-second pause between the groups does not affect any counter). -/
def execute_orders (place_order : OrderRequest → Except Unit OrderResponse)
    (max_daily : ℕ) (max_trade : ℚ)
    (sell_orders buy_orders : List OrderRequest) (daily0 : ℕ) : ExecState :=
  execute_loop place_order max_daily max_trade buy_orders
    (execute_loop place_order max_daily max_trade sell_orders ⟨[], daily0, 0⟩)

lemma execute_loop_daily (place_order : OrderRequest → Except Unit OrderResponse)
    (max_daily : ℕ) (max_trade : ℚ) :
    ∀ (orders : List OrderRequest) (st : ExecState),
      (execute_loop place_order max_daily max_trade orders st).daily_trade_count +
        st.results.length =
      st.daily_trade_count +
        (execute_loop place_order max_daily max_trade orders st).results.length := by
  intro orders
  induction orders with
  | nil => intro st; rfl
  | cons o rest ih =>
      intro st
      rw [execute_loop]
      split
      · rfl
      · split
        · exact ih st
        · cases hp : place_order o with
          | ok resp =>
              have h1 := ih ⟨st.results ++ [resp], st.daily_trade_count + 1,
                st.attempts + 1⟩
              simp only [execute_single, hp, List.length_append,
                List.length_cons, List.length_nil] at h1 ⊢
              omega
          | error e =>
              have h1 := ih ⟨st.results ++ [], st.daily_trade_count,
                st.attempts + 1⟩
              simp only [execute_single, hp, List.append_nil] at h1 ⊢
              exact h1

/-- C1 (amended): across a run, the daily trade counter advances exactly by
the number of placement calls that returned without raising — equivalently,
by the number of recorded results.  Gate-rejected orders never advance it
(they never reach placement), and neither does a placement call that raises,
refuting the claim that every submission attempt is counted (see
`failed_placement_not_counted`). -/
theorem daily_count_eq_submission_successes
    (place_order : OrderRequest → Except Unit OrderResponse)
    (max_daily : ℕ) (max_trade : ℚ) (sell_orders buy_orders : List OrderRequest)
    (daily0 : ℕ) :
    (execute_orders place_order max_daily max_trade sell_orders buy_orders
        daily0).daily_trade_count =
      daily0 + (execute_orders place_order max_daily max_trade sell_orders
        buy_orders daily0).results.length := by
  have h1 := execute_loop_daily place_order max_daily max_trade sell_orders
    ⟨[], daily0, 0⟩
  have h2 := execute_loop_daily place_order max_daily max_trade buy_orders
    (execute_loop place_order max_daily max_trade sell_orders ⟨[], daily0, 0⟩)
  simp only [execute_orders]
  simp only [List.length_nil] at h1
  omega

/-- A valid sample order (quantity 1, price 1). -/
def orderC : OrderRequest := ⟨"sec-c", "C", 1, "sell_quantity", "limit", 1, "day"⟩

/-- C1 counterexample: one valid order reaches the placement collaborator
(`attempts = 1`) but the call raises, and the daily count stays 0 — the
submission attempt is not counted, because `executor.py:105` increments only
after a successful `place_order`. -/
theorem failed_placement_not_counted :
    (execute_orders (fun _ => Except.error ()) 20 5000 [orderC] [] 0).attempts = 1 ∧
    (execute_orders (fun _ => Except.error ()) 20 5000 [orderC] []
      0).daily_trade_count = 0 := by
  constructor <;>
    norm_num [execute_orders, execute_loop, execute_single, validate_order, orderC]

end TradingBot
